import Mathlib

/-!
Formal model of the meanflow dataset-preparation pipeline: running FID
statistics (Welford accumulation, parallel-variance merge), shard planning,
batch padding, and the thin CLI wrappers in test11.py and
download_imagenet.py.  Floating-point values of the implementation are
modelled by exact rationals.
-/

namespace Meanflow

set_option maxHeartbeats 1000000

/-- Feature vectors of dimension `d`, with exact rational entries standing in
for the floating-point feature values of the implementation. -/
abbrev Vec (d : ℕ) := Fin d → ℚ

/-- Modelled from the spec: the `RunningStats` record of the Statistics
Accumulator (the implementation lives in `utils/fid_util`, which is not part
of the visible sources): sample count `n`, mean vector, and the accumulated
sum-of-squares matrix `m2` (not yet divided by the count). -/
@[ext]
structure RunningStats (d : ℕ) where
  n : ℕ
  mean : Fin d → ℚ
  m2 : Fin d → Fin d → ℚ

/-- Modelled from the spec: the empty accumulator (`n = 0`, zero mean, zero
sum of squares) from which accumulation starts. -/
def initStats (d : ℕ) : RunningStats d where
  n := 0
  mean := fun _ => 0
  m2 := fun _ _ => 0

/-- Modelled from the spec: one step of the numerically stable one-pass
(Welford-style) update from section 4.5 of the spec, folding one sample
vector `x` into the statistics:
`n1 = n + 1`, `delta = x - mean`, `mean1 = mean + delta / n1`,
`m2 + outer (delta, x - mean1)`. -/
def foldStep {d : ℕ} (s : RunningStats d) (x : Vec d) : RunningStats d where
  n := s.n + 1
  mean := fun j => s.mean j + (x j - s.mean j) / ((s.n : ℚ) + 1)
  m2 := fun i j => s.m2 i j +
    (x i - s.mean i) * (x j - (s.mean j + (x j - s.mean j) / ((s.n : ℚ) + 1)))

/-- Modelled from the spec: folding a whole list of sample vectors into the
statistics, one Welford step per sample. -/
def foldVecs {d : ℕ} (s : RunningStats d) (xs : List (Vec d)) : RunningStats d :=
  xs.foldl foldStep s

/-- Modelled from the spec: merging two `RunningStats` with the
parallel-variance combination formula (Distributed Coordinator reduction,
section 4.5/4.6 of the spec). -/
def merge {d : ℕ} (a b : RunningStats d) : RunningStats d where
  n := a.n + b.n
  mean := fun j =>
    ((a.n : ℚ) * a.mean j + (b.n : ℚ) * b.mean j) / ((a.n : ℚ) + (b.n : ℚ))
  m2 := fun i j => a.m2 i j + b.m2 i j +
    (a.n : ℚ) * (b.n : ℚ) * (b.mean i - a.mean i) * (b.mean j - a.mean j) /
      ((a.n : ℚ) + (b.n : ℚ))

/-- Reference closed form of the statistics of a list of sample vectors:
count, component sums divided by the count, and
`sum of x i * x j - (sum of x i) * (sum of x j) / n`. -/
def clStats {d : ℕ} (xs : List (Vec d)) : RunningStats d where
  n := xs.length
  mean := fun j => (xs.map (fun x => x j)).sum / (xs.length : ℚ)
  m2 := fun i j => (xs.map (fun x => x i * x j)).sum -
    (xs.map (fun x => x i)).sum * (xs.map (fun x => x j)).sum / (xs.length : ℚ)

lemma merge_comm {d : ℕ} (a b : RunningStats d) : merge a b = merge b a := by
  refine RunningStats.ext ?_ ?_ ?_
  · exact Nat.add_comm _ _
  · funext j
    show ((a.n : ℚ) * a.mean j + (b.n : ℚ) * b.mean j) / ((a.n : ℚ) + (b.n : ℚ))
      = ((b.n : ℚ) * b.mean j + (a.n : ℚ) * a.mean j) / ((b.n : ℚ) + (a.n : ℚ))
    ring
  · funext i j
    show a.m2 i j + b.m2 i j +
        (a.n : ℚ) * (b.n : ℚ) * (b.mean i - a.mean i) * (b.mean j - a.mean j) /
          ((a.n : ℚ) + (b.n : ℚ))
      = b.m2 i j + a.m2 i j +
        (b.n : ℚ) * (a.n : ℚ) * (a.mean i - b.mean i) * (a.mean j - b.mean j) /
          ((b.n : ℚ) + (a.n : ℚ))
    ring

lemma merge_assoc {d : ℕ} (a b c : RunningStats d) :
    merge (merge a b) c = merge a (merge b c) := by
  by_cases hab : a.n + b.n = 0
  · have ha : a.n = 0 := by omega
    have hb : b.n = 0 := by omega
    refine RunningStats.ext (by simp [merge, ha, hb]) ?_ ?_
    · funext j
      simp [merge, ha, hb]
      by_cases hc : (c.n : ℚ) = 0
      · simp [hc]
      · field_simp
    · funext i j
      simp [merge, ha, hb]
      ring
  · by_cases hbc : b.n + c.n = 0
    · have hb : b.n = 0 := by omega
      have hc : c.n = 0 := by omega
      have hA : ((a.n : ℚ)) ≠ 0 := by
        have : a.n ≠ 0 := by omega
        exact_mod_cast this
      refine RunningStats.ext (by simp [merge, hb, hc]) ?_ ?_
      · funext j
        simp [merge, hb, hc]
        field_simp
      · funext i j
        simp [merge, hb, hc]
        ring
    · have hAB : ((a.n : ℚ) + (b.n : ℚ)) ≠ 0 := by
        have h1 : (((a.n : ℚ) + (b.n : ℚ))) = ((a.n + b.n : ℕ) : ℚ) := by push_cast; ring
        rw [h1]
        exact_mod_cast hab
      have hBC : ((b.n : ℚ) + (c.n : ℚ)) ≠ 0 := by
        have h1 : (((b.n : ℚ) + (c.n : ℚ))) = ((b.n + c.n : ℕ) : ℚ) := by push_cast; ring
        rw [h1]
        exact_mod_cast hbc
      have hABC : ((a.n : ℚ) + (b.n : ℚ) + (c.n : ℚ)) ≠ 0 := by
        have h1 : ((a.n : ℚ) + (b.n : ℚ) + (c.n : ℚ)) = ((a.n + b.n + c.n : ℕ) : ℚ) := by
          push_cast; ring
        rw [h1]
        have : a.n + b.n + c.n ≠ 0 := by omega
        exact_mod_cast this
      refine RunningStats.ext (by simp [merge, Nat.add_assoc]) ?_ ?_
      · funext j
        show ((((a.n + b.n : ℕ)) : ℚ) *
              (((a.n : ℚ) * a.mean j + (b.n : ℚ) * b.mean j) / ((a.n : ℚ) + (b.n : ℚ)))
              + (c.n : ℚ) * c.mean j) / (((a.n + b.n : ℕ) : ℚ) + (c.n : ℚ))
          = ((a.n : ℚ) * a.mean j + (((b.n + c.n : ℕ)) : ℚ) *
              (((b.n : ℚ) * b.mean j + (c.n : ℚ) * c.mean j) / ((b.n : ℚ) + (c.n : ℚ))))
              / ((a.n : ℚ) + ((b.n + c.n : ℕ) : ℚ))
        push_cast
        have hABC2 : ((a.n : ℚ) + ((b.n : ℚ) + (c.n : ℚ))) ≠ 0 := by
          intro h; exact hABC (by linarith)
        field_simp
        ring
      · funext i j
        show (a.m2 i j + b.m2 i j +
              (a.n : ℚ) * (b.n : ℚ) * (b.mean i - a.mean i) * (b.mean j - a.mean j) /
                ((a.n : ℚ) + (b.n : ℚ))) + c.m2 i j +
              ((a.n + b.n : ℕ) : ℚ) * (c.n : ℚ) *
                (c.mean i - ((a.n : ℚ) * a.mean i + (b.n : ℚ) * b.mean i) / ((a.n : ℚ) + (b.n : ℚ))) *
                (c.mean j - ((a.n : ℚ) * a.mean j + (b.n : ℚ) * b.mean j) / ((a.n : ℚ) + (b.n : ℚ))) /
                (((a.n + b.n : ℕ) : ℚ) + (c.n : ℚ))
          = a.m2 i j + (b.m2 i j + c.m2 i j +
              (b.n : ℚ) * (c.n : ℚ) * (c.mean i - b.mean i) * (c.mean j - b.mean j) /
                ((b.n : ℚ) + (c.n : ℚ))) +
              (a.n : ℚ) * ((b.n + c.n : ℕ) : ℚ) *
                (((b.n : ℚ) * b.mean i + (c.n : ℚ) * c.mean i) / ((b.n : ℚ) + (c.n : ℚ)) - a.mean i) *
                (((b.n : ℚ) * b.mean j + (c.n : ℚ) * c.mean j) / ((b.n : ℚ) + (c.n : ℚ)) - a.mean j) /
                ((a.n : ℚ) + ((b.n + c.n : ℕ) : ℚ))
        push_cast
        field_simp
        ring

lemma clStats_nil {d : ℕ} : clStats ([] : List (Vec d)) = initStats d := by
  refine RunningStats.ext rfl ?_ ?_
  · funext j
    simp [clStats, initStats]
  · funext i j
    simp [clStats, initStats]

lemma foldStep_clStats {d : ℕ} (pre : List (Vec d)) (x : Vec d) :
    foldStep (clStats pre) x = clStats (pre ++ [x]) := by
  by_cases hp : pre = []
  · subst hp
    refine RunningStats.ext rfl ?_ ?_
    · funext j
      simp [foldStep, clStats]
    · funext i j
      simp [foldStep, clStats]
  · have hn : ((pre.length : ℚ)) ≠ 0 := by
      have : pre.length ≠ 0 := fun h => hp (List.length_eq_zero.mp h)
      exact_mod_cast this
    have hn1 : ((pre.length : ℚ) + 1) ≠ 0 := by positivity
    refine RunningStats.ext (by simp [foldStep, clStats]) ?_ ?_
    · funext j
      simp only [foldStep, clStats, List.map_append, List.sum_append, List.map_cons,
        List.map_nil, List.sum_cons, List.sum_nil, List.length_append, List.length_cons,
        List.length_nil]
      push_cast
      field_simp
      ring
    · funext i j
      simp only [foldStep, clStats, List.map_append, List.sum_append, List.map_cons,
        List.map_nil, List.sum_cons, List.sum_nil, List.length_append, List.length_cons,
        List.length_nil]
      push_cast
      field_simp
      ring

lemma foldVecs_clStats {d : ℕ} (xs : List (Vec d)) :
    ∀ pre : List (Vec d), foldVecs (clStats pre) xs = clStats (pre ++ xs) := by
  induction xs with
  | nil => intro pre; simp [foldVecs]
  | cons x xs ih =>
    intro pre
    have h1 : foldVecs (clStats pre) (x :: xs) = foldVecs (foldStep (clStats pre) x) xs := rfl
    rw [h1, foldStep_clStats, ih]
    simp

lemma welford_clStats {d : ℕ} (xs : List (Vec d)) :
    foldVecs (initStats d) xs = clStats xs := by
  have h := foldVecs_clStats xs []
  rw [clStats_nil] at h
  simpa using h

lemma merge_clStats {d : ℕ} (xs ys : List (Vec d)) :
    merge (clStats xs) (clStats ys) = clStats (xs ++ ys) := by
  by_cases hx : xs = []
  · subst hx
    rw [clStats_nil]
    by_cases hy : ys = []
    · subst hy
      rw [clStats_nil]
      refine RunningStats.ext rfl ?_ ?_
      · funext j
        simp [merge, initStats, clStats]
      · funext i j
        simp [merge, initStats, clStats]
    · have hny : ((ys.length : ℚ)) ≠ 0 := by
        have : ys.length ≠ 0 := fun h => hy (List.length_eq_zero.mp h)
        exact_mod_cast this
      refine RunningStats.ext (by simp [merge, initStats, clStats]) ?_ ?_
      · funext j
        simp [merge, initStats, clStats]
        field_simp
      · funext i j
        simp [merge, initStats, clStats]
  · by_cases hy : ys = []
    · subst hy
      rw [clStats_nil]
      have hnx : ((xs.length : ℚ)) ≠ 0 := by
        have : xs.length ≠ 0 := fun h => hx (List.length_eq_zero.mp h)
        exact_mod_cast this
      refine RunningStats.ext (by simp [merge, initStats, clStats]) ?_ ?_
      · funext j
        simp [merge, initStats, clStats]
        field_simp
      · funext i j
        simp [merge, initStats, clStats]
    · have hnx : ((xs.length : ℚ)) ≠ 0 := by
        have : xs.length ≠ 0 := fun h => hx (List.length_eq_zero.mp h)
        exact_mod_cast this
      have hny : ((ys.length : ℚ)) ≠ 0 := by
        have : ys.length ≠ 0 := fun h => hy (List.length_eq_zero.mp h)
        exact_mod_cast this
      have hnxy : ((xs.length : ℚ) + (ys.length : ℚ)) ≠ 0 := by positivity
      refine RunningStats.ext (by simp [merge, clStats]) ?_ ?_
      · funext j
        simp only [merge, clStats, List.map_append, List.sum_append, List.length_append]
        push_cast
        field_simp
      · funext i j
        simp only [merge, clStats, List.map_append, List.sum_append, List.length_append]
        push_cast
        field_simp
        ring

lemma foldl_merge_clStats {d : ℕ} (L : List (List (Vec d))) :
    (L.map clStats).foldl merge (initStats d) = clStats L.flatten := by
  suffices h : ∀ acc : List (Vec d),
      (L.map clStats).foldl merge (clStats acc) = clStats (acc ++ L.flatten) by
    have h0 := h []
    rw [clStats_nil] at h0
    simpa using h0
  induction L with
  | nil => intro acc; simp [List.flatten]
  | cons l L ih =>
    intro acc
    simp only [List.map_cons, List.foldl_cons, List.flatten_cons]
    rw [merge_clStats, ih]
    simp

/-- Modelled from the spec: the Shard Planner index set for worker `r` out of
`W` workers over `N` samples, the ordered list of all `i < N` with
`i mod W = r` (the implementation lives in `utils/fid_util`, which is not
part of the visible sources). -/
def shardList (N W r : ℕ) : List ℕ :=
  (List.range N).filter (fun i => i % W == r)

/-- Modelled from the spec: the partial statistics computed by worker `r`,
obtained by Welford-folding the samples of its shard in shard order. -/
def workerStats {d : ℕ} (data : ℕ → Vec d) (N W r : ℕ) : RunningStats d :=
  foldVecs (initStats d) ((shardList N W r).map data)

/-- Modelled from the spec: the Distributed Coordinator reduction, merging the
per-worker statistics of all `W` workers into one global result. -/
def mergedStats {d : ℕ} (data : ℕ → Vec d) (N W : ℕ) : RunningStats d :=
  ((List.range W).map (workerStats data N W)).foldl merge (initStats d)

/-- Modelled from the spec: single-worker accumulation over the entire
dataset, in dataset order. -/
def serialStats {d : ℕ} (data : ℕ → Vec d) (N : ℕ) : RunningStats d :=
  foldVecs (initStats d) ((List.range N).map data)

lemma sum_map_ones {α : Type} (l : List α) : (l.map (fun _ => (1 : ℕ))).sum = l.length := by
  induction l with
  | nil => simp
  | cons a l ih => simp [ih]; omega

lemma list_sum_map_add {α M : Type} [AddCommMonoid M] (l : List α) (g h : α → M) :
    (l.map (fun x => g x + h x)).sum = (l.map g).sum + (l.map h).sum := by
  induction l with
  | nil => simp
  | cons a l ih =>
    simp only [List.map_cons, List.sum_cons, ih]
    abel

lemma sum_map_ite_single {M : Type} [AddCommMonoid M] (v : M) (r0 : ℕ) (W : ℕ) :
    ((List.range W).map (fun r => if r0 = r then v else 0)).sum
      = if r0 < W then v else 0 := by
  induction W with
  | zero => simp
  | succ W ih =>
    rw [List.range_succ]
    simp only [List.map_append, List.sum_append, List.map_cons, List.map_nil,
      List.sum_cons, List.sum_nil, ih]
    rcases lt_trichotomy r0 W with h | h | h
    · have h2 : ¬(r0 = W) := by omega
      have h3 : r0 < W + 1 := by omega
      simp [h, h2, h3]
    · subst h
      have h2 : ¬(r0 < r0) := by omega
      simp [h2]
    · have h2 : ¬(r0 < W) := by omega
      have h3 : ¬(r0 = W) := by omega
      have h4 : ¬(r0 < W + 1) := by omega
      simp [h2, h3, h4]

lemma shardList_succ (N W r : ℕ) :
    shardList (N + 1) W r
      = shardList N W r ++ (if N % W = r then [N] else []) := by
  rw [shardList, shardList, List.range_succ, List.filter_append]
  congr 1
  simp [List.filter_singleton]

lemma shardList_sum {M : Type} [AddCommMonoid M] (f : ℕ → M) (W : ℕ) (hW : 0 < W)
    (N : ℕ) :
    ((List.range W).map (fun r => ((shardList N W r).map f).sum)).sum
      = ((List.range N).map f).sum := by
  induction N with
  | zero => simp [shardList]
  | succ N ih =>
    have hsplit : ∀ r : ℕ,
        ((shardList (N + 1) W r).map f).sum
          = ((shardList N W r).map f).sum + (if N % W = r then f N else 0) := by
      intro r
      rw [shardList_succ]
      by_cases h : N % W = r
      · simp [h]
      · simp [h]
    simp only [hsplit]
    rw [list_sum_map_add, ih, sum_map_ite_single]
    have hlt : N % W < W := Nat.mod_lt _ hW
    rw [List.range_succ]
    simp [hlt]

lemma sum_map_flatten {α M : Type} [AddCommMonoid M] (L : List (List α)) (g : α → M) :
    ((L.flatten).map g).sum = (L.map (fun l => (l.map g).sum)).sum := by
  induction L with
  | nil => simp
  | cons l L ih => simp [ih]; rfl

lemma shards_map_sum {d : ℕ} {M : Type} [AddCommMonoid M] (data : ℕ → Vec d)
    (N W : ℕ) (hW : 0 < W) (g : Vec d → M) :
    ((((List.range W).map (fun r => (shardList N W r).map data)).flatten).map g).sum
      = (((List.range N).map data).map g).sum := by
  rw [sum_map_flatten, List.map_map, List.map_map]
  have h1 : ((fun l => (List.map g l).sum) ∘ fun r => (shardList N W r).map data)
      = fun r => ((shardList N W r).map (fun i => g (data i))).sum := by
    funext r
    show (List.map g ((shardList N W r).map data)).sum
      = ((shardList N W r).map (fun i => g (data i))).sum
    rw [List.map_map]
    rfl
  have h2 : (g ∘ data) = fun i => g (data i) := rfl
  rw [h1, h2, shardList_sum _ W hW N]

lemma shards_flatten_length {d : ℕ} (data : ℕ → Vec d) (N W : ℕ) (hW : 0 < W) :
    (((List.range W).map (fun r => (shardList N W r).map data)).flatten).length = N := by
  have h := shards_map_sum data N W hW (fun _ => (1 : ℕ))
  rw [sum_map_ones, sum_map_ones] at h
  simpa using h

lemma clStats_shards {d : ℕ} (data : ℕ → Vec d) (N W : ℕ) (hW : 0 < W) :
    clStats (((List.range W).map (fun r => (shardList N W r).map data)).flatten)
      = clStats ((List.range N).map data) := by
  have hlen := shards_flatten_length data N W hW
  have hlen2 : (((List.range N).map data)).length = N := by simp
  refine RunningStats.ext ?_ ?_ ?_
  · show (((List.range W).map (fun r => (shardList N W r).map data)).flatten).length
      = (((List.range N).map data)).length
    rw [hlen, hlen2]
  · funext j
    show (_ : ℚ) / _ = _ / _
    rw [shards_map_sum data N W hW (fun x => x j), hlen, hlen2]
  · funext i j
    show (_ : ℚ) - _ * _ / _ = _ - _ * _ / _
    rw [shards_map_sum data N W hW (fun x => x i * x j),
      shards_map_sum data N W hW (fun x => x i),
      shards_map_sum data N W hW (fun x => x j), hlen, hlen2]

/-- Claim C1: merging the `W` per-shard `RunningStats` produced by a full run
yields the same `(mean, covariance accumulator, count)` triple (exactly, in
the rational model standing in for floating point) as accumulating the entire
dataset in a single worker; the merge is the parallel-variance combination
formula `merge`. -/
theorem parallel_serial_equiv {d : ℕ} (data : ℕ → Vec d) (N W : ℕ) (hW : 0 < W) :
    mergedStats data N W = serialStats data N := by
  have hw : workerStats data N W = fun r => clStats ((shardList N W r).map data) := by
    funext r
    rw [workerStats, welford_clStats]
  have h1 : (List.range W).map (fun r => clStats ((shardList N W r).map data))
      = ((List.range W).map (fun r => (shardList N W r).map data)).map clStats := by
    rw [List.map_map]
    rfl
  rw [mergedStats, serialStats, welford_clStats, hw, h1, foldl_merge_clStats]
  exact clStats_shards data N W hW

/-- Sample dataset for the parallel/serial witness. -/
def dataEx : ℕ → Vec 1 := fun i => fun _ => (i : ℚ)

/-- Concrete instantiation of `parallel_serial_equiv`: 5 samples over 2
workers. -/
theorem parallel_serial_equiv_witness :
    0 < 2 ∧ mergedStats dataEx 5 2 = serialStats dataEx 5 :=
  ⟨by decide, parallel_serial_equiv dataEx 5 2 (by decide)⟩

/-- Error taxonomy of section 7 of the spec (the cases needed by the visible
claims). -/
inductive PipelineError
  | configurationError
  | invalidStateError
  deriving DecidableEq

/-- Modelled from the spec: the Shard Planner entry point (the implementation
lives in `utils/fid_util`, which is not part of the visible sources): fails
with `ConfigurationError` when `W ≤ 0` or `r` is outside `[0, W)`, otherwise
returns the ordered index list of worker `r`. -/
def shardPlan (N : ℕ) (W r : ℤ) : Except PipelineError (List ℕ) :=
  if W ≤ 0 ∨ r < 0 ∨ W ≤ r then Except.error PipelineError.configurationError
  else Except.ok (shardList N W.toNat r.toNat)

lemma shardList_mem (N W r i : ℕ) : i ∈ shardList N W r ↔ i < N ∧ i % W = r := by
  simp [shardList, List.mem_filter, List.mem_range]

/-- Claim C4: the Shard Planner returns the ordered set of global indices
with `i mod W = r`; the shards of distinct workers are disjoint and together
cover every index of `[0, N)` exactly once; and it fails with
`ConfigurationError` exactly when `W ≤ 0` or `r` is outside `[0, W)`. -/
theorem shard_planner_correct (N : ℕ) :
    (∀ W r : ℤ,
      shardPlan N W r = Except.error PipelineError.configurationError
        ↔ (W ≤ 0 ∨ r < 0 ∨ W ≤ r))
    ∧ (∀ W r : ℤ, 0 < W → 0 ≤ r → r < W →
        shardPlan N W r = Except.ok (shardList N W.toNat r.toNat))
    ∧ (∀ W r i : ℕ, i ∈ shardList N W r ↔ i < N ∧ i % W = r)
    ∧ (∀ W r : ℕ, List.Pairwise (· < ·) (shardList N W r))
    ∧ (∀ W r1 r2 i : ℕ, r1 ≠ r2 → i ∈ shardList N W r1 → i ∉ shardList N W r2)
    ∧ (∀ W : ℕ, 0 < W → ∀ i : ℕ, i < N →
        ∃! r : ℕ, r < W ∧ i ∈ shardList N W r) := by
  refine ⟨?_, ?_, shardList_mem N, ?_, ?_, ?_⟩
  · intro W r
    by_cases h : W ≤ 0 ∨ r < 0 ∨ W ≤ r
    · simp [shardPlan, h]
    · simp [shardPlan, h]
  · intro W r hW hr hrW
    have h : ¬(W ≤ 0 ∨ r < 0 ∨ W ≤ r) := by omega
    simp [shardPlan, h]
  · intro W r
    exact List.Pairwise.filter _ (List.pairwise_lt_range N)
  · intro W r1 r2 i h12 h1 h2
    have e1 := ((shardList_mem N W r1 i).mp h1).2
    have e2 := ((shardList_mem N W r2 i).mp h2).2
    exact h12 (e1 ▸ e2 ▸ rfl)
  · intro W hW i hi
    refine ⟨i % W, ⟨Nat.mod_lt i hW, (shardList_mem N W (i % W) i).mpr ⟨hi, rfl⟩⟩, ?_⟩
    rintro s ⟨hs, hmem⟩
    exact (((shardList_mem N W s i).mp hmem).2).symm

/-- Concrete instantiation of `shard_planner_correct`: over 5 samples with 2
workers, worker 1 owns indices 1 and 3, and worker count 0 is rejected. -/
theorem shard_planner_correct_witness :
    shardPlan 5 2 1 = Except.ok [1, 3]
      ∧ shardPlan 5 0 0 = Except.error PipelineError.configurationError := by
  constructor
  · have h := (shard_planner_correct 5).2.1 2 1 (by decide) (by decide) (by decide)
    rw [h]
    rfl
  · exact ((shard_planner_correct 5).1 0 0).mpr (by decide)

/-- Modelled from the spec: the two control states of the Statistics
Accumulator state machine (`ACCUMULATING → FINALIZED`). -/
inductive AccPhase
  | accumulating
  | finalized
  deriving DecidableEq

/-- Modelled from the spec: the Statistics Accumulator (implementation in
`utils/fid_util`, not part of the visible sources): a control phase together
with the running statistics. -/
structure Accumulator (d : ℕ) where
  phase : AccPhase
  stats : RunningStats d

/-- Modelled from the spec: `fold` on the accumulator: a Welford fold of the
batch features while `ACCUMULATING`, and an `InvalidStateError` failure after
`finalize`. -/
def foldAcc {d : ℕ} (a : Accumulator d) (xs : List (Vec d)) :
    Except PipelineError (Accumulator d) :=
  match a.phase with
  | AccPhase.finalized => Except.error PipelineError.invalidStateError
  | AccPhase.accumulating => Except.ok ⟨AccPhase.accumulating, foldVecs a.stats xs⟩

/-- Modelled from the spec: `finalize` transitions the accumulator to the
`FINALIZED` phase (keeping the accumulated moments). -/
def finalizeAcc {d : ℕ} (a : Accumulator d) : Accumulator d :=
  ⟨AccPhase.finalized, a.stats⟩

lemma foldVecs_n {d : ℕ} (xs : List (Vec d)) :
    ∀ s : RunningStats d, (foldVecs s xs).n = s.n + xs.length := by
  induction xs with
  | nil => intro s; simp [foldVecs]
  | cons x xs ih =>
    intro s
    have h : foldVecs s (x :: xs) = foldVecs (foldStep s x) xs := rfl
    rw [h, ih]
    simp [foldStep]
    omega

/-- Claim C5: the Statistics Accumulator is a two-state machine
`ACCUMULATING → FINALIZED`: every fold in state `ACCUMULATING` succeeds and
performs the Welford one-pass update (in particular the count grows by the
number of folded samples), `finalize` transitions to `FINALIZED`, and every
fold after `finalize` fails with `InvalidStateError`. -/
theorem accumulator_state_machine {d : ℕ} (a : Accumulator d) (xs : List (Vec d)) :
    (a.phase = AccPhase.accumulating →
      foldAcc a xs = Except.ok ⟨AccPhase.accumulating, foldVecs a.stats xs⟩
        ∧ (foldAcc a xs).map (fun b => b.stats.n) = Except.ok (a.stats.n + xs.length))
    ∧ (finalizeAcc a).phase = AccPhase.finalized
    ∧ (a.phase = AccPhase.finalized →
        foldAcc a xs = Except.error PipelineError.invalidStateError) := by
  refine ⟨?_, rfl, ?_⟩
  · intro h
    have h1 : foldAcc a xs = Except.ok ⟨AccPhase.accumulating, foldVecs a.stats xs⟩ := by
      simp [foldAcc, h]
    refine ⟨h1, ?_⟩
    rw [h1]
    simp [Except.map, foldVecs_n]
  · intro h
    simp [foldAcc, h]

/-- Sample accumulators and a sample vector for the state-machine witness. -/
def accEx : Accumulator 1 :=
  ⟨AccPhase.accumulating, initStats 1⟩

/-- Sample finalized accumulator for the state-machine witness. -/
def accExF : Accumulator 1 :=
  ⟨AccPhase.finalized, initStats 1⟩

/-- Sample vector for the state-machine witness. -/
def vEx : Vec 1 := fun _ => 3

/-- Concrete instantiation of `accumulator_state_machine`. -/
theorem accumulator_state_machine_witness :
    foldAcc accEx [vEx] = Except.ok ⟨AccPhase.accumulating, foldVecs accEx.stats [vEx]⟩
    ∧ (finalizeAcc accEx).phase = AccPhase.finalized
    ∧ foldAcc accExF [vEx] = Except.error PipelineError.invalidStateError :=
  ⟨((accumulator_state_machine accEx [vEx]).1 rfl).1,
   (accumulator_state_machine accEx [vEx]).2.1,
   (accumulator_state_machine accExF [vEx]).2.2 rfl⟩

/-- Modelled from the spec: a Batch of the Batch Loader (implementation in
`utils/fid_util`, not part of the visible sources): an ordered list of
samples in which the entries from position `realCount` onward are padding. -/
structure Batch (d : ℕ) where
  samples : List (Vec d)
  realCount : ℕ

/-- Modelled from the spec: the Batch Loader splits a shard into batches of
size `B`, padding the final partial batch with copies of `pad`; `realCount`
marks how many leading entries are real samples. -/
def mkBatches {d : ℕ} (B : ℕ) (pad : Vec d) (l : List (Vec d)) : List (Batch d) :=
  if h : B = 0 ∨ l = [] then []
  else
    ⟨l.take B ++ List.replicate (B - l.length) pad, min B l.length⟩
      :: mkBatches B pad (l.drop B)
termination_by l.length
decreasing_by
  push_neg at h
  have h1 : 0 < l.length := List.length_pos.mpr h.2
  simp [List.length_drop]
  omega

/-- The real (non-padding) samples of a batch. -/
def realSamples {d : ℕ} (b : Batch d) : List (Vec d) :=
  b.samples.take b.realCount

/-- Modelled from the spec: processing a shard folds only the real samples of
each batch into the statistics; padding entries are discarded. -/
def foldBatches {d : ℕ} (s : RunningStats d) (bs : List (Batch d)) : RunningStats d :=
  bs.foldl (fun acc b => foldVecs acc (realSamples b)) s

lemma take_append_self {α : Type} : ∀ (xs ys : List α), (xs ++ ys).take xs.length = xs
  | [], _ => rfl
  | x :: xs, ys => by simp [take_append_self xs ys]

lemma foldBatches_mkBatches_n {d : ℕ} (B : ℕ) (hB : 0 < B) (pad : Vec d) :
    ∀ (k : ℕ) (l : List (Vec d)), l.length ≤ k → ∀ s : RunningStats d,
      (foldBatches s (mkBatches B pad l)).n = s.n + l.length := by
  intro k
  induction k with
  | zero =>
    intro l hl s
    have h0 : l = [] := List.eq_nil_of_length_eq_zero (by omega)
    subst h0
    rw [mkBatches]
    simp [foldBatches]
  | succ k ih =>
    intro l hl s
    by_cases hn : l = []
    · subst hn
      rw [mkBatches]
      simp [foldBatches]
    · rw [mkBatches]
      have hcond : ¬(B = 0 ∨ l = []) := by
        push_neg
        exact ⟨by omega, hn⟩
      rw [dif_neg hcond]
      have hstep : foldBatches s
            (⟨l.take B ++ List.replicate (B - l.length) pad, min B l.length⟩
              :: mkBatches B pad (l.drop B))
          = foldBatches (foldVecs s (realSamples
              ⟨l.take B ++ List.replicate (B - l.length) pad, min B l.length⟩))
              (mkBatches B pad (l.drop B)) := rfl
      rw [hstep]
      have hlpos : 0 < l.length := List.length_pos.mpr hn
      rw [ih (l.drop B) (by simp [List.length_drop]; omega)]
      have hreal : realSamples
          ⟨l.take B ++ List.replicate (B - l.length) pad, min B l.length⟩ = l.take B := by
        rw [realSamples]
        have hlen : (l.take B).length = min B l.length := List.length_take B l
        rw [← hlen, take_append_self]
      rw [hreal, foldVecs_n, List.length_drop, List.length_take]
      omega

/-- Claim C6: padding samples added to fill the final partial batch are never
folded into the statistics: for every shard, the accumulated count equals the
number of real samples of the shard, never inflated by padding entries. -/
theorem padding_never_folded {d : ℕ} (B : ℕ) (hB : 0 < B) (pad : Vec d)
    (l : List (Vec d)) :
    (foldBatches (initStats d) (mkBatches B pad l)).n = l.length := by
  have h := foldBatches_mkBatches_n B hB pad l.length l le_rfl (initStats d)
  simpa [initStats] using h

/-- Sample shard of five vectors for the padding witness (5 is not a multiple
of the batch size 2, so the final batch carries one padding entry). -/
def exList5 : List (Vec 1) :=
  [fun _ => 1, fun _ => 2, fun _ => 3, fun _ => 4, fun _ => 5]

/-- Concrete instantiation of `padding_never_folded`: batch size 2 over a
shard of 5 samples yields a final count of 5. -/
theorem padding_never_folded_witness :
    0 < 2 ∧ (foldBatches (initStats 1) (mkBatches 2 (fun _ => 0) exList5)).n
      = exList5.length :=
  ⟨by decide, padding_never_folded 2 (by decide) (fun _ => 0) exList5⟩

/-- Claim C7: the merge operation on `RunningStats` is associative and
commutative (exactly, in the rational model standing in for floating point):
for all `A B C`, `merge (merge A B) C = merge A (merge B C)` and
`merge A B = merge B A`. -/
theorem merge_is_assoc_and_comm {d : ℕ} (a b c : RunningStats d) :
    merge (merge a b) c = merge a (merge b c) ∧ merge a b = merge b a :=
  ⟨merge_assoc a b c, merge_comm a b⟩

/-- Modelled from the spec: a persisted FID statistics artifact: its path and
the final statistics triple. -/
structure FidArtifact (d : ℕ) where
  path : String
  stats : RunningStats d

/-- Modelled from the spec: the durable state seen by `compute_fid_stats`:
the FID statistics artifact under the output directory, if one exists. -/
structure FidState (d : ℕ) where
  artifact : Option (FidArtifact d)

/-- Artifact path under an output directory. -/
def fidStatsPath (outputDir : String) : String :=
  outputDir ++ "/fid_stats.npz"

/-- Modelled from the spec: `compute_fid_stats` (implementation in
`utils/fid_util`, not part of the visible sources): with `overwrite = false`
and an existing artifact the call is a documented success returning the
existing path without recomputing and without touching the accumulator;
otherwise it accumulates the whole dataset and writes a fresh artifact.
The result records the returned path, the durable state afterwards, and
whether the accumulator was used. -/
def compute_fid_stats {d : ℕ} (data : ℕ → Vec d) (N : ℕ) (outputDir : String)
    (overwrite : Bool) (st : FidState d) :
    Except PipelineError (String × FidState d × Bool) :=
  match st.artifact with
  | some art =>
    if overwrite then
      Except.ok (fidStatsPath outputDir,
        ⟨some ⟨fidStatsPath outputDir, serialStats data N⟩⟩, true)
    else
      Except.ok (art.path, st, false)
  | none =>
    Except.ok (fidStatsPath outputDir,
      ⟨some ⟨fidStatsPath outputDir, serialStats data N⟩⟩, true)

/-- Claim C2: with `overwrite = false` and an existing artifact,
`compute_fid_stats` is a documented success (no exception) returning the
existing artifact path, with the durable state unchanged (so the artifact
content is untouched) and without running the accumulator. -/
theorem compute_fid_stats_noop {d : ℕ} (data : ℕ → Vec d) (N : ℕ)
    (outputDir : String) (st : FidState d) (art : FidArtifact d)
    (h : st.artifact = some art) :
    compute_fid_stats data N outputDir false st = Except.ok (art.path, st, false) := by
  simp [compute_fid_stats, h]

/-- Sample existing artifact for the no-op witness. -/
def artEx : FidArtifact 1 :=
  ⟨"/out/fid_stats.npz", initStats 1⟩

/-- Sample durable state holding `artEx` for the no-op witness. -/
def stEx : FidState 1 :=
  ⟨some artEx⟩

/-- Concrete instantiation of `compute_fid_stats_noop`. -/
theorem compute_fid_stats_noop_witness :
    compute_fid_stats (fun _ => (fun _ => (0 : ℚ))) 3 "/out2" false stEx
      = Except.ok (artEx.path, stEx, false) :=
  compute_fid_stats_noop (fun _ => (fun _ => (0 : ℚ))) 3 "/out2" stEx artEx rfl

/-- The type of a command-line flag of test11.py. -/
inductive FlagKind
  | stringFlag
  | intFlag
  | boolFlag
  deriving DecidableEq

/-- A flag definition: its name and type. -/
structure FlagSpec where
  name : String
  kind : FlagKind
  deriving DecidableEq

/-- The flag definitions of test11.py, in source order:
`flags.DEFINE_string imagenet_root`, `flags.DEFINE_string output_dir`,
`flags.DEFINE_integer image_size`, `flags.DEFINE_boolean overwrite`. -/
def test11Flags : List FlagSpec :=
  [⟨"imagenet_root", FlagKind.stringFlag⟩,
   ⟨"output_dir", FlagKind.stringFlag⟩,
   ⟨"image_size", FlagKind.intFlag⟩,
   ⟨"overwrite", FlagKind.boolFlag⟩]

/-- Counterexample to claim C3 as stated: `batch_size`, `encoder_type`,
`compute_latent` and `compute_fid` are not among the configuration options
test11.py defines. -/
theorem test11_flags_counterexample :
    "batch_size" ∉ test11Flags.map FlagSpec.name
    ∧ "encoder_type" ∉ test11Flags.map FlagSpec.name
    ∧ "compute_latent" ∉ test11Flags.map FlagSpec.name
    ∧ "compute_fid" ∉ test11Flags.map FlagSpec.name := by
  decide

/-- Claim C3 (amended): the program recognizes exactly the configuration
options `imagenet_root`, `output_dir`, `image_size` and `overwrite`. -/
theorem test11_flags_exact :
    test11Flags.map FlagSpec.name
      = ["imagenet_root", "output_dir", "image_size", "overwrite"] := rfl

/-- The four flag values test11.py reads. -/
structure Test11Flags where
  imagenet_root : String
  output_dir : String
  image_size : ℕ
  overwrite : Bool

/-- A call from test11.py into the core pipeline. -/
inductive CoreCall
  | computeFidStats (imagenetRoot outputDir : String) (imageSize : ℕ)
      (overwrite : Bool)
  deriving DecidableEq

/-- The error raised by main of test11.py. -/
inductive MainError
  | valueError (msg : String)
  deriving DecidableEq

/-- Shallow embedding of `main` of test11.py over an abstract filesystem
(`pathExists`): main first validates `imagenet_root` with `os.path.exists`
and raises `ValueError` naming the missing path; only afterwards does it
call `compute_fid_stats` with the four flag values.  The result is the list
of core calls performed. -/
def mainRun (pathExists : String → Bool) (fl : Test11Flags) :
    Except MainError (List CoreCall) :=
  if pathExists fl.imagenet_root then
    Except.ok [CoreCall.computeFidStats fl.imagenet_root fl.output_dir
      fl.image_size fl.overwrite]
  else
    Except.error (MainError.valueError
      ("ImageNet root path does not exist: " ++ fl.imagenet_root))

/-- Claim C8: when the configured `imagenet_root` does not exist, `main`
raises `ValueError` with a message naming the missing path, and
`compute_fid_stats` is never called (no successful call list is produced). -/
theorem main_missing_root (pathExists : String → Bool) (fl : Test11Flags)
    (h : pathExists fl.imagenet_root = false) :
    mainRun pathExists fl
      = Except.error (MainError.valueError
          ("ImageNet root path does not exist: " ++ fl.imagenet_root))
    ∧ ∀ calls : List CoreCall, mainRun pathExists fl ≠ Except.ok calls := by
  have h1 : mainRun pathExists fl
      = Except.error (MainError.valueError
          ("ImageNet root path does not exist: " ++ fl.imagenet_root)) := by
    simp [mainRun, h]
  refine ⟨h1, fun calls hc => ?_⟩
  rw [h1] at hc
  exact Except.noConfusion hc

/-- Concrete instantiation of `main_missing_root`. -/
theorem main_missing_root_witness :
    mainRun (fun _ => false) ⟨"/data/imagenet", "/out", 256, false⟩
      = Except.error (MainError.valueError
          ("ImageNet root path does not exist: " ++ "/data/imagenet")) :=
  (main_missing_root (fun _ => false) ⟨"/data/imagenet", "/out", 256, false⟩ rfl).1

/-- File open modes used by `download_file`. -/
inductive OpenMode
  | writeMode
  | appendMode
  deriving DecidableEq

/-- The download request plan: the optional HTTP Range header and the open
mode of the output file. -/
structure DownloadPlan where
  rangeHeader : Option String
  mode : OpenMode
  deriving DecidableEq

/-- Shallow embedding of the resume logic of `download_file` in
download_imagenet.py: when the output file already exists with `sizeOnDisk`
bytes, the request carries the Range header `bytes=<size>-` and the file is
opened in append mode (ab); otherwise there is no Range header and the file
is opened in write mode (wb). -/
def downloadFilePlan (fileOnDisk : Bool) (sizeOnDisk : ℕ) : DownloadPlan :=
  if fileOnDisk then
    ⟨some ("bytes=" ++ Nat.repr sizeOnDisk ++ "-"), OpenMode.appendMode⟩
  else
    ⟨none, OpenMode.writeMode⟩

/-- Writing the downloaded bytes under an open mode: append keeps the bytes
already on disk, write starts from byte zero. -/
def writeBytes (m : OpenMode) (old new : List ℕ) : List ℕ :=
  match m with
  | OpenMode.appendMode => old ++ new
  | OpenMode.writeMode => new

/-- Claim C9: when the output file exists, `download_file` requests a Range
starting at the on-disk size and appends, so previously downloaded bytes are
preserved and not re-requested; when it does not exist the file is opened in
write mode from byte zero. -/
theorem download_resume_correct (size : ℕ) (old new : List ℕ) :
    downloadFilePlan true size
        = ⟨some ("bytes=" ++ Nat.repr size ++ "-"), OpenMode.appendMode⟩
    ∧ writeBytes (downloadFilePlan true size).mode old new = old ++ new
    ∧ downloadFilePlan false size = ⟨none, OpenMode.writeMode⟩
    ∧ writeBytes (downloadFilePlan false size).mode old new = new :=
  ⟨rfl, rfl, rfl, rfl⟩

/-- Severity of a log message in download_imagenet.py. -/
inductive LogLevel
  | errorLog
  | warningLog
  | infoLog
  deriving DecidableEq

/-- The observable facts about an extracted ImageNet directory that
`validate_imagenet_structure` inspects. -/
structure ImagenetDir where
  trainPresent : Bool
  valPresent : Bool
  trainClassCount : ℕ
  valImageCount : ℕ

/-- Shallow embedding of `validate_imagenet_structure` of
download_imagenet.py: iterates over train then val; a missing directory logs
an error and returns False at once; shortfalls in the train class-folder
count (below 1000) or the val image count (below 50000) only log warnings;
if both directories exist the function logs success and returns True. -/
def validate_imagenet_structure (dd : ImagenetDir) : Bool × List (LogLevel × String) :=
  if dd.trainPresent = false then
    (false, [(LogLevel.errorLog, "Missing directory: train")])
  else
    let logs1 : List (LogLevel × String) :=
      if dd.trainClassCount < 1000 then
        [(LogLevel.warningLog, "Train directory has fewer subdirectories than expected")]
      else []
    if dd.valPresent = false then
      (false, logs1 ++ [(LogLevel.errorLog, "Missing directory: val")])
    else
      let logs2 : List (LogLevel × String) :=
        if dd.valImageCount < 50000 then
          [(LogLevel.warningLog, "Val directory has fewer images than expected")]
        else []
      (true, logs1 ++ logs2 ++
        [(LogLevel.infoLog, "ImageNet dataset structure validation passed")])

/-- Claim C10: `validate_imagenet_structure` returns False exactly when the
train or the val directory is missing; when both exist it returns True, a
shortfall in the train class-folder count producing only a logged warning,
never a False result. -/
theorem validate_structure_correct (dd : ImagenetDir) :
    ((validate_imagenet_structure dd).1 = false
      ↔ (dd.trainPresent = false ∨ dd.valPresent = false))
    ∧ (dd.trainPresent = true → dd.valPresent = true →
        (validate_imagenet_structure dd).1 = true)
    ∧ (dd.trainPresent = true → dd.valPresent = true →
        dd.trainClassCount < 1000 →
        (LogLevel.warningLog,
          "Train directory has fewer subdirectories than expected")
            ∈ (validate_imagenet_structure dd).2) := by
  obtain ⟨tp, vp, tc, vc⟩ := dd
  cases tp <;> cases vp <;>
    constructor <;>
    try constructor
  all_goals
    simp [validate_imagenet_structure]

/-- Concrete instantiation of `validate_structure_correct`: both directories
present but the train directory has only 500 class folders: validation still
passes and the shortfall is only a warning. -/
theorem validate_structure_correct_witness :
    (validate_imagenet_structure ⟨true, true, 500, 60000⟩).1 = true
    ∧ (LogLevel.warningLog, "Train directory has fewer subdirectories than expected")
        ∈ (validate_imagenet_structure ⟨true, true, 500, 60000⟩).2 :=
  ⟨(validate_structure_correct ⟨true, true, 500, 60000⟩).2.1 rfl rfl,
   (validate_structure_correct ⟨true, true, 500, 60000⟩).2.2 rfl rfl (by decide)⟩

end Meanflow
